import Mathlib

/-!
Verification development for the AceSweeps spin-wheel backend
(`server.js` and its near-identical variant `unnamed/part_000`).

The backend is shallowly embedded:
* the Postgres tables `spin_codes` / `spin_results` become lists inside a
  `Db` state record; `SERIAL` ids are modelled by explicit counters;
* `Math.random()` values are passed in explicitly as rationals in `[0,1)`;
* each HTTP handler becomes a pure function from the state (plus its
  injected randomness / clock values) to a result and a successor state;
* the `BEGIN`/`COMMIT`/`ROLLBACK` transaction of `POST /spin/play` is
  modelled by keeping tentative writes separate from the published state:
  only the commit point publishes them, every failure path returns the
  original state.  A `FailSpec` record injects storage failures at each of
  the statements the handler runs, mirroring a thrown query error that the
  handler's `catch` turns into `ROLLBACK`.
-/

/-- Rational addition implemented directly on numerator/denominator pairs.
`Rat.add` (and hence `+`) is `@[irreducible]` in this toolchain, which would
keep concrete states from evaluating inside the kernel; `raAdd` computes the
same value (theorem `raAdd_eq`) while staying reducible. -/
def raAdd (a b : Rat) : Rat := mkRat (a.num * b.den + b.num * a.den) (a.den * b.den)

/-- Rational multiplication, reducible variant of `*` (theorem `raMul_eq`). -/
def raMul (a b : Rat) : Rat := mkRat (a.num * b.num) (a.den * b.den)

/-- Floor of a rational, reducible variant of `⌊·⌋` (theorem `raFloor_eq`). -/
def raFloor (a : Rat) : Int := a.num / a.den

/-- One prize tier of the spin wheel: `{ prize, weight, cents }` objects of
the `SPIN_OUTCOMES` array in the source. -/
structure Outcome where
  prize : String
  weight : Rat
  cents : Int
deriving DecidableEq

/-- The `SPIN_OUTCOMES` table of `server.js` (lines 35-43); the decimal
weight literals `0.05`, `0.10`, ... are written as the rationals they
denote. -/
def SPIN_OUTCOMES : List Outcome :=
  [⟨"$100", mkRat 5 100, 10000⟩,
   ⟨"$75", mkRat 10 100, 7500⟩,
   ⟨"$50", mkRat 15 100, 5000⟩,
   ⟨"$25", mkRat 20 100, 2500⟩,
   ⟨"$10", mkRat 20 100, 1000⟩,
   ⟨"$5", mkRat 20 100, 500⟩,
   ⟨"Try Again", mkRat 10 100, 0⟩]

/-- The `SPIN_OUTCOMES` table of the unnamed variant `unnamed/part_000`
(lines 40-48), transcribed separately so the two configurations can be
compared. -/
def SPIN_OUTCOMES_part000 : List Outcome :=
  [⟨"$100", mkRat 5 100, 10000⟩,
   ⟨"$75", mkRat 10 100, 7500⟩,
   ⟨"$50", mkRat 15 100, 5000⟩,
   ⟨"$25", mkRat 20 100, 2500⟩,
   ⟨"$10", mkRat 20 100, 1000⟩,
   ⟨"$5", mkRat 20 100, 500⟩,
   ⟨"Try Again", mkRat 10 100, 0⟩]

/-- The accumulation loop of `selectWeightedOutcome`: walks the outcomes in
order keeping the running `cumulativeWeight`, returning the first outcome
with `random <= cumulativeWeight`. -/
def selectLoop (random : Rat) : Rat → List Outcome → Option Outcome
  | _, [] => none
  | cum, o :: rest =>
    if random ≤ raAdd cum o.weight then some o
    else selectLoop random (raAdd cum o.weight) rest

/-- `selectWeightedOutcome` of `server.js` (lines 51-64), generalised over
the outcome table and with the internal `Math.random()` call modelled as the
explicit argument `random`.  The JS fallback `SPIN_OUTCOMES[length - 1]`
yields `undefined` on an empty table, hence the `Option`. -/
def selectWeightedOutcome (outcomes : List Outcome) (random : Rat) : Option Outcome :=
  match selectLoop random 0 outcomes with
  | some o => some o
  | none => outcomes.getLast?

/-- Cumulative weight of the first `i + 1` outcomes. -/
def cumWeight (outcomes : List Outcome) (i : Nat) : Rat :=
  ((outcomes.take (i + 1)).map (·.weight)).sum

/-- The spec's description of `draw()`: return the first tier (in configured
order) whose cumulative weight is `≥ r`; if none qualifies, fall back to the
last configured tier. -/
def drawSpec (outcomes : List Outcome) (r : Rat) : Option Outcome :=
  match (List.range outcomes.length).find? (fun i => r ≤ cumWeight outcomes i) with
  | some i => outcomes[i]?
  | none => outcomes.getLast?

/-- The two-tier table `[{A,0.05,10000},{B,0.95,0}]` from the spec's
`draw()` scenario. -/
def tiersAB : List Outcome := [⟨"A", mkRat 5 100, 10000⟩, ⟨"B", mkRat 95 100, 0⟩]

/-- Numeric value `Math.floor(10000 + random * 90000)` computed inside
`generateSpinCode` (`server.js` line 48), with `Math.random()` modelled as
the argument. -/
def generateSpinCodeNat (random : Rat) : Nat :=
  (raFloor (raAdd 10000 (raMul random 90000))).toNat

/-- `generateSpinCode` of `server.js` (lines 47-49): the numeric value
rendered as a decimal string by `.toString()`. -/
def generateSpinCode (random : Rat) : String :=
  Nat.repr (generateSpinCodeNat random)

/-- The format guard used by `/spin/verify` and `/spin/play`:
`!code || code.length !== 5 || !/^\d{5}$/.test(code)` rejects the request.
For a string, the regex `^\d{5}$` holds exactly when the string has five
characters, all ASCII digits (which also subsumes the emptiness and length
tests). -/
def isValidCodeFormat (code : String) : Bool :=
  code.length == 5 && code.data.all Char.isDigit

/-- A row of the `spin_codes` table: `SERIAL` id, the 5-digit code value
(`UNIQUE`), the status (`'unused'` by default, `'used'` after redemption)
and the `used_at` timestamp. -/
structure SpinCode where
  id : Nat
  code : String
  status : String
  usedAt : Option Nat
deriving DecidableEq

/-- A row of the `spin_results` table: `SERIAL` id, the redeemed code's id,
the outcome label, the prize in cents, and the tier weight (`odds`). -/
structure SpinResult where
  id : Nat
  codeId : Nat
  outcome : String
  prizeCents : Int
  odds : Rat
deriving DecidableEq

/-- The persistent store: both tables plus the next value of each `SERIAL`
sequence.  The lists are unordered models of the relational tables; new rows
are prepended. -/
structure Db where
  spinCodes : List SpinCode
  spinResults : List SpinResult
  nextCodeId : Nat
  nextResultId : Nat
deriving DecidableEq

/-- Does a `spin_codes` row with this code value exist?  (The `UNIQUE`
constraint check performed by `INSERT INTO spin_codes`.) -/
def Db.hasCode (db : Db) (v : String) : Bool :=
  db.spinCodes.any (fun c => c.code == v)

/-- `SELECT id, code, status FROM spin_codes WHERE code = $1`. -/
def Db.findCode (db : Db) (v : String) : Option SpinCode :=
  db.spinCodes.find? (fun c => c.code == v)

/-- `INSERT INTO spin_codes (code) VALUES ($1)`: a fresh row with the next
serial id and the default status `'unused'`. -/
def Db.insertCode (db : Db) (v : String) : Db × SpinCode :=
  let row : SpinCode := ⟨db.nextCodeId, v, "unused", none⟩
  ({ db with spinCodes := row :: db.spinCodes, nextCodeId := db.nextCodeId + 1 }, row)

/-- Effect of `UPDATE spin_codes SET status = 'used', used_at = NOW()
WHERE id = $2` on a single row. -/
def useRow (cid : Nat) (now : Nat) (c : SpinCode) : SpinCode :=
  if c.id == cid then { c with status := "used", usedAt := some now } else c

/-- `UPDATE spin_codes SET status = 'used', used_at = NOW() WHERE id = $2`. -/
def Db.markUsed (db : Db) (cid : Nat) (now : Nat) : Db :=
  { db with spinCodes := db.spinCodes.map (useRow cid now) }

/-- `INSERT INTO spin_results (code_id, outcome, prize_cents, odds)`. -/
def Db.insertResult (db : Db) (cid : Nat) (o : Outcome) : Db × SpinResult :=
  let row : SpinResult := ⟨db.nextResultId, cid, o.prize, o.cents, o.weight⟩
  ({ db with spinResults := row :: db.spinResults, nextResultId := db.nextResultId + 1 }, row)

/-- Result of `POST /spin/verify`: 400 invalid format, 404 not found,
400 already used, or the success body. -/
inductive VerifyResult
  | invalidFormat
  | notFound
  | alreadyUsed
  | valid (code : String)
deriving DecidableEq

/-- `POST /spin/verify` (`server.js` lines 198-230): a read-only lookup that
never changes the store. -/
def verify (db : Db) (code : String) : VerifyResult :=
  if !isValidCodeFormat code then .invalidFormat
  else
    match db.findCode code with
    | none => .notFound
    | some cd => if cd.status == "used" then .alreadyUsed else .valid cd.code

/-- Injected storage failures for `POST /spin/play`: each flag makes the
corresponding SQL statement of the handler throw, which the handler's
`catch` block answers with `ROLLBACK` and a 500 response. -/
structure FailSpec where
  failSelect : Bool
  failUpdate : Bool
  failInsert : Bool
  failCommit : Bool
deriving DecidableEq

/-- The run with no storage failures. -/
def noFail : FailSpec := ⟨false, false, false, false⟩

/-- Typed failures of `POST /spin/play`. -/
inductive PlayError
  | invalidFormat
  | notFound
  | alreadyUsed
  | storage
deriving DecidableEq

/-- Result of `POST /spin/play`: the success body carries the outcome label,
prize cents and odds of the drawn tier. -/
inductive PlayResult
  | ok (outcome : String) (prizeCents : Int) (odds : Rat)
  | err (e : PlayError)
deriving DecidableEq

/-- Is a play result a success? -/
def PlayResult.isOk : PlayResult → Bool
  | .ok _ _ _ => true
  | .err _ => false

/-- The modelled call site `const outcome = selectWeightedOutcome();` inside
the `/spin/play` transaction: the selector neither reads nor writes the
store, so the state passes through unchanged; its `Math.random()` call is
the injected `random`. -/
def drawStep (db : Db) (random : Rat) : Option Outcome × Db :=
  (selectWeightedOutcome SPIN_OUTCOMES random, db)

/-- `POST /spin/play` (`server.js` lines 233-302) as a transaction on the
store.  Reads (`SELECT ... FOR UPDATE`) see the current state; the writes
(`UPDATE`, `INSERT`) build a tentative state `t1`/`t2` which only `COMMIT`
publishes; every failure path answers with `ROLLBACK`, discarding the
tentative state and returning the original `db`.  The row lock taken by
`FOR UPDATE` serializes concurrent plays of the same code, which is why one
atomic transition per call models the handler faithfully.  An empty outcome
table would make the JS fallback return `undefined` and the subsequent field
accesses throw (caught as a storage failure); that branch is unreachable for
the configured `SPIN_OUTCOMES`. -/
def play (fs : FailSpec) (db : Db) (code : String) (random : Rat) (now : Nat) :
    PlayResult × Db :=
  if !isValidCodeFormat code then (.err .invalidFormat, db)
  else if fs.failSelect then (.err .storage, db)
  else
    match db.findCode code with
    | none => (.err .notFound, db)
    | some cd =>
      if cd.status == "used" then (.err .alreadyUsed, db)
      else
        match drawStep db random with
        | (none, _) => (.err .storage, db)
        | (some o, _) =>
          let t1 := db.markUsed cd.id now
          if fs.failUpdate then (.err .storage, db)
          else
            let ins := t1.insertResult cd.id o
            if fs.failInsert then (.err .storage, db)
            else if fs.failCommit then (.err .storage, db)
            else (.ok ins.2.outcome ins.2.prizeCents ins.2.odds, ins.1)

/-- The code-generation loop of `POST /admin/generate` (`server.js` lines
144-161).  `randoms` supplies the successive `Math.random()` values (the
model's fuel); `slots` is the remaining iteration count of
`for (i = 0; i < Math.min(count, 100); i++)`.  A duplicate insert raises
error `23505`, on which the handler does `i--; continue`, i.e. retries the
same slot with the next random value.  The returned flag is `true` when the
loop finished and `false` when the supplied randoms were exhausted with
slots still unfilled (the JS loop would still be running). -/
def generateGo : List Rat → Nat → Db → List SpinCode → Db × List SpinCode × Bool
  | _, 0, db, acc => (db, acc.reverse, true)
  | [], _ + 1, db, acc => (db, acc.reverse, false)
  | r :: rs, n + 1, db, acc =>
    let code := generateSpinCode r
    if db.hasCode code then generateGo rs (n + 1) db acc
    else
      let ins := db.insertCode code
      generateGo rs n ins.1 (ins.2 :: acc)

/-- `POST /admin/generate` with requested `count`: runs the loop for
`Math.min(count, 100)` slots. -/
def generate (db : Db) (count : Nat) (randoms : List Rat) : Db × List SpinCode × Bool :=
  generateGo randoms (min count 100) db []

/-- One API request touching the store: code issuance, verification, or a
play (with its injected randomness, clock and storage-failure pattern). -/
inductive Op
  | issue (count : Nat) (randoms : List Rat)
  | verifyOp (code : String)
  | playOp (fs : FailSpec) (code : String) (random : Rat) (now : Nat)

/-- The successor state after one request. -/
def applyOp (db : Db) : Op → Db
  | .issue count randoms => (generate db count randoms).1
  | .verifyOp _ => db
  | .playOp fs code random now => (play fs db code random now).2

/-- The freshly initialized store: both tables empty, serials at 1. -/
def db0 : Db := ⟨[], [], 1, 1⟩

/-- The state reached from the fresh store by a sequence of requests. -/
def run (ops : List Op) : Db := ops.foldl applyOp db0

/-- Number of `spin_results` rows referencing the given code id. -/
def resultsFor (db : Db) (cid : Nat) : Nat :=
  db.spinResults.countP (fun rr => rr.codeId == cid)

/-- Well-formedness invariant of the store (C4): row ids and code values are
unique (`SERIAL` primary key, `UNIQUE` code column), ids stay below the
serial counter, each result references at most one code and each code has at
most one result (1:1), a result row exists for a code exactly when that code
is `'used'`, and statuses only take the two values the handlers write. -/
def DbInv (db : Db) : Prop :=
  db.spinCodes.Pairwise (fun a b => a.id ≠ b.id ∧ a.code ≠ b.code) ∧
  (∀ c ∈ db.spinCodes, c.id < db.nextCodeId) ∧
  db.spinResults.Pairwise (fun a b => a.codeId ≠ b.codeId) ∧
  (∀ rr ∈ db.spinResults, ∃ c ∈ db.spinCodes, c.id = rr.codeId) ∧
  (∀ c ∈ db.spinCodes, (c.status = "used" ↔ ∃ rr ∈ db.spinResults, rr.codeId = c.id)) ∧
  (∀ c ∈ db.spinCodes, c.status = "used" ∨ c.status = "unused")

/-- The code value `v` is present and every row holding it is `'used'`. -/
def UsedAll (db : Db) (v : String) : Prop :=
  (∃ c ∈ db.spinCodes, c.code = v) ∧
  ∀ c ∈ db.spinCodes, c.code = v → c.status = "used"

instance (db : Db) : Decidable (DbInv db) := by
  unfold DbInv
  infer_instance

instance (db : Db) (v : String) : Decidable (UsedAll db v) := by
  unfold UsedAll
  infer_instance

/-- The distinct candidate code values drawn from `randoms` that are not yet
present in the store: the resource that lets the issuance loop fill slots. -/
def freshSet (randoms : List Rat) (db : Db) : Finset String :=
  (randoms.map generateSpinCode).toFinset.filter (fun v => db.hasCode v = false)

/-- The injected randomness of a request is a `Math.random()` value: every
value supplied to the issuance loop lies in `[0, 1)`. -/
def OpValid : Op → Prop
  | .issue _ randoms => ∀ r ∈ randoms, 0 ≤ r ∧ r < 1
  | .verifyOp _ => True
  | .playOp _ _ _ _ => True

/-- All requests of the sequence carry valid randomness. -/
def OpsValid (ops : List Op) : Prop := ∀ op ∈ ops, OpValid op

instance : DecidablePred OpValid := fun op => by
  cases op with
  | issue count randoms => exact inferInstanceAs (Decidable (∀ r ∈ randoms, 0 ≤ r ∧ r < 1))
  | verifyOp code => exact inferInstanceAs (Decidable True)
  | playOp fs code random now => exact inferInstanceAs (Decidable True)

instance (ops : List Op) : Decidable (OpsValid ops) := by
  unfold OpsValid
  infer_instance

/-- Every code value in the store is the decimal rendering of some positive
number — the shape the generator produces. -/
def CodesFromGen (db : Db) : Prop :=
  ∀ c ∈ db.spinCodes, ∃ n : Nat, 1 ≤ n ∧ c.code = Nat.repr n

theorem raAdd_eq (a b : Rat) : raAdd a b = a + b := (Rat.add_def' a b).symm

theorem raMul_eq (a b : Rat) : raMul a b = a * b := by
  rw [Rat.mul_def, Rat.normalize_eq_mkRat]; rfl

theorem raFloor_eq (a : Rat) : raFloor a = ⌊a⌋ := Rat.floor_def.symm

theorem cumWeight_cons_zero (o : Outcome) (os : List Outcome) :
    cumWeight (o :: os) 0 = o.weight := by
  simp [cumWeight]

theorem cumWeight_cons_succ (o : Outcome) (os : List Outcome) (i : Nat) :
    cumWeight (o :: os) (i + 1) = o.weight + cumWeight os i := by
  simp [cumWeight, List.take_succ_cons]

/-- The accumulation loop returns the first outcome whose cumulative weight
(offset by the starting accumulator) reaches the random value. -/
theorem selectLoop_eq_find (r : Rat) (os : List Outcome) : ∀ acc : Rat,
    selectLoop r acc os =
      match (List.range os.length).find? (fun i => decide (r ≤ acc + cumWeight os i)) with
      | some i => os[i]?
      | none => none := by
  induction os with
  | nil => intro acc; rfl
  | cons o os ih =>
    intro acc
    rw [selectLoop, raAdd_eq]
    rw [List.length_cons, List.range_succ_eq_map, List.find?_cons]
    by_cases h : r ≤ acc + o.weight
    · have hp : decide (r ≤ acc + cumWeight (o :: os) 0) = true := by
        rw [cumWeight_cons_zero]; exact decide_eq_true h
      simp only [hp, if_pos h]
      simp
    · have hp : decide (r ≤ acc + cumWeight (o :: os) 0) = false := by
        rw [cumWeight_cons_zero]; exact decide_eq_false h
      simp only [hp, if_neg h]
      rw [ih (acc + o.weight), List.find?_map]
      have hfun : ((fun i => decide (r ≤ acc + cumWeight (o :: os) i)) ∘ Nat.succ)
          = fun i => decide (r ≤ acc + o.weight + cumWeight os i) := by
        funext i
        simp only [Function.comp_apply, Nat.succ_eq_add_one, cumWeight_cons_succ, add_assoc]
      rw [hfun]
      cases hf : (List.range os.length).find?
          (fun i => decide (r ≤ acc + o.weight + cumWeight os i)) with
      | none => rfl
      | some i =>
        dsimp only [Option.map_some']
        rw [List.getElem?_cons_succ]

/-- The selector equals the spec's `draw()`: the first tier in configured
order whose cumulative weight is `≥ r`, with fallback to the last tier. -/
theorem selectWeightedOutcome_eq_drawSpec (os : List Outcome) (r : Rat) :
    selectWeightedOutcome os r = drawSpec os r := by
  rw [selectWeightedOutcome, drawSpec, selectLoop_eq_find r os 0]
  have hfun : (fun i => decide (r ≤ 0 + cumWeight os i))
      = fun i => decide (r ≤ cumWeight os i) := by
    funext i; rw [zero_add]
  rw [hfun]
  cases hf : (List.range os.length).find? (fun i => decide (r ≤ cumWeight os i)) with
  | none => rfl
  | some i =>
    have hi : i < os.length := by
      have := List.mem_of_find?_eq_some hf
      exact List.mem_range.mp this
    have hgi : os[i]? = some os[i] := List.getElem?_eq_getElem hi
    dsimp only
    rw [hgi]

/-- The selector always lands inside the configured table (nonempty case). -/
theorem selectWeightedOutcome_mem (os : List Outcome) (r : Rat) (h : os ≠ []) :
    ∃ o, selectWeightedOutcome os r = some o ∧ o ∈ os := by
  rw [selectWeightedOutcome_eq_drawSpec, drawSpec]
  cases hf : (List.range os.length).find? (fun i => decide (r ≤ cumWeight os i)) with
  | none =>
    cases hl : os.getLast? with
    | none => exact absurd (List.getLast?_eq_none_iff.mp hl) h
    | some o => exact ⟨o, rfl, List.mem_of_mem_getLast? hl⟩
  | some i =>
    have hi : i < os.length := List.mem_range.mp (List.mem_of_find?_eq_some hf)
    exact ⟨os[i], List.getElem?_eq_getElem hi, os.getElem_mem hi⟩

/-- C3: for every random value `r`, `draw()` returns the first tier in
configured order whose cumulative weight is `≥ r`, falling back to the last
configured tier when none qualifies, so it always produces a tier of the
configured table; concretely on tiers `[{A,0.05,10000},{B,0.95,0}]`,
`r = 0.03` yields `A` with payout `10000` and `r = 0.50` yields `B` with
payout `0`. -/
theorem selectWeightedOutcome_follows_spec (os : List Outcome) (r : Rat) (h : os ≠ []) :
    selectWeightedOutcome os r = drawSpec os r ∧
    (∃ o, selectWeightedOutcome os r = some o ∧ o ∈ os) ∧
    selectWeightedOutcome tiersAB (mkRat 3 100) = some ⟨"A", mkRat 5 100, 10000⟩ ∧
    selectWeightedOutcome tiersAB (mkRat 1 2) = some ⟨"B", mkRat 95 100, 0⟩ :=
  ⟨selectWeightedOutcome_eq_drawSpec os r, selectWeightedOutcome_mem os r h,
    by decide, by decide⟩

/-- Concrete instance of `selectWeightedOutcome_follows_spec` on the spec's
two-tier scenario table. -/
theorem selectWeightedOutcome_follows_spec_witness :
    selectWeightedOutcome tiersAB (mkRat 3 100) = drawSpec tiersAB (mkRat 3 100) ∧
    (∃ o, selectWeightedOutcome tiersAB (mkRat 3 100) = some o ∧ o ∈ tiersAB) ∧
    selectWeightedOutcome tiersAB (mkRat 3 100) = some ⟨"A", mkRat 5 100, 10000⟩ ∧
    selectWeightedOutcome tiersAB (mkRat 1 2) = some ⟨"B", mkRat 95 100, 0⟩ :=
  selectWeightedOutcome_follows_spec tiersAB (mkRat 3 100) (by decide)

/-- C8: the selector, with its internal `Math.random()` call modelled as the
injected value `random`, is a pure deterministic function of that value: it
leaves the store untouched, its output does not depend on the store, and it
always produces some configured tier. -/
theorem drawStep_pure_deterministic (random : Rat) (db db' : Db) :
    drawStep db random = (selectWeightedOutcome SPIN_OUTCOMES random, db) ∧
    (drawStep db random).1 = (drawStep db' random).1 ∧
    (drawStep db random).2 = db ∧
    (∃ o, (drawStep db random).1 = some o ∧ o ∈ SPIN_OUTCOMES) :=
  ⟨rfl, rfl, rfl, selectWeightedOutcome_mem SPIN_OUTCOMES random (by decide)⟩

/-- C9 counterexample: the claim that the two variants' `SPIN_OUTCOMES`
tables differ, with exactly one summing to `1.0`, is false — the configured
sequences are equal (so in particular neither sums to `1.0` without the
other). -/
theorem spinOutcomes_claim_false :
    ¬(SPIN_OUTCOMES ≠ SPIN_OUTCOMES_part000 ∧
      (((SPIN_OUTCOMES.map Outcome.weight).sum = 1 ∧
          (SPIN_OUTCOMES_part000.map Outcome.weight).sum ≠ 1) ∨
        ((SPIN_OUTCOMES.map Outcome.weight).sum ≠ 1 ∧
          (SPIN_OUTCOMES_part000.map Outcome.weight).sum = 1))) := by
  intro h
  exact h.1 rfl

/-- C9 amended: the two near-identical server variants configure identical
ordered `SPIN_OUTCOMES` sequences, and both weight tables sum to exactly
`1.0`. -/
theorem spinOutcomes_tables_agree :
    SPIN_OUTCOMES = SPIN_OUTCOMES_part000 ∧
    (SPIN_OUTCOMES.map Outcome.weight).sum = 1 ∧
    (SPIN_OUTCOMES_part000.map Outcome.weight).sum = 1 := by
  refine ⟨rfl, ?_, ?_⟩ <;>
    norm_num [SPIN_OUTCOMES, SPIN_OUTCOMES_part000, Rat.mkRat_eq_div]

/-- Any non-success run of the `/spin/play` transaction leaves the store
exactly as it was: every failure path rolls back before publishing the
tentative writes. -/
theorem play_err_db_eq (fs : FailSpec) (db : Db) (v : String) (r : Rat) (t : Nat) :
    (play fs db v r t).1.isOk = false → (play fs db v r t).2 = db := by
  rw [play]
  repeat' split
  all_goals intro h
  all_goals first
    | rfl
    | (simp [PlayResult.isOk] at h)

/-- C6: an input that is not exactly five ASCII digits is rejected with the
format error by both `/spin/verify` and `/spin/play`, whatever the state of
the store and whichever storage statements would fail — the format check
runs before any interaction with the store, which is also why the play
leaves the store unchanged. -/
theorem invalid_format_rejected_before_storage (v : String)
    (h : isValidCodeFormat v = false) :
    (∀ db, verify db v = .invalidFormat) ∧
    (∀ fs db r t, play fs db v r t = (.err .invalidFormat, db)) := by
  constructor
  · intro db; rw [verify]; simp [h]
  · intro fs db r t; rw [play]; simp [h]

/-- Concrete instance of `invalid_format_rejected_before_storage` on the
four-digit input `"1234"`, with every storage statement set to fail. -/
theorem invalid_format_rejected_before_storage_witness :
    verify db0 "1234" = .invalidFormat ∧
    play ⟨true, true, true, true⟩ db0 "1234" (mkRat 1 2) 0 = (.err .invalidFormat, db0) :=
  ⟨(invalid_format_rejected_before_storage "1234" (by decide)).1 db0,
    (invalid_format_rejected_before_storage "1234" (by decide)).2
      ⟨true, true, true, true⟩ db0 (mkRat 1 2) 0⟩

/-- C2: whenever `/spin/play` returns a failure — malformed input, unknown
code, already-used code, or an injected storage failure at any statement
before commit — the transaction rolls back: the store (hence every code's
status and `used_at`, and the whole `spin_results` table) is exactly the
prior state. -/
theorem play_failure_rolls_back (fs : FailSpec) (db : Db) (v : String) (r : Rat)
    (t : Nat) (e : PlayError) (hfail : (play fs db v r t).1 = .err e) :
    (play fs db v r t).2 = db ∧
    ((play fs db v r t).2).spinCodes = db.spinCodes ∧
    ((play fs db v r t).2).spinResults = db.spinResults := by
  have hdb : (play fs db v r t).2 = db := by
    apply play_err_db_eq
    rw [hfail]
    rfl
  exact ⟨hdb, by rw [hdb], by rw [hdb]⟩

/-- Concrete instance of `play_failure_rolls_back`: a commit failure on a
well-formed, present, unused code leaves the one-row store intact. -/
theorem play_failure_rolls_back_witness :
    (play ⟨false, false, false, true⟩ ⟨[⟨1, "55000", "unused", none⟩], [], 2, 1⟩
        "55000" (mkRat 1 2) 7).2 = ⟨[⟨1, "55000", "unused", none⟩], [], 2, 1⟩ ∧
    ((play ⟨false, false, false, true⟩ ⟨[⟨1, "55000", "unused", none⟩], [], 2, 1⟩
        "55000" (mkRat 1 2) 7).2).spinCodes = [⟨1, "55000", "unused", none⟩] ∧
    ((play ⟨false, false, false, true⟩ ⟨[⟨1, "55000", "unused", none⟩], [], 2, 1⟩
        "55000" (mkRat 1 2) 7).2).spinResults = [] :=
  play_failure_rolls_back ⟨false, false, false, true⟩
    ⟨[⟨1, "55000", "unused", none⟩], [], 2, 1⟩ "55000" (mkRat 1 2) 7 .storage (by decide)

theorem useRow_id (cid now : Nat) (c : SpinCode) : (useRow cid now c).id = c.id := by
  rw [useRow]; split <;> rfl

theorem useRow_code (cid now : Nat) (c : SpinCode) : (useRow cid now c).code = c.code := by
  rw [useRow]; split <;> rfl

theorem useRow_of_ne (cid now : Nat) (c : SpinCode) (h : c.id ≠ cid) :
    useRow cid now c = c := by
  rw [useRow, if_neg]
  simpa using h

theorem useRow_of_eq (cid now : Nat) (c : SpinCode) (h : c.id = cid) :
    useRow cid now c = { c with status := "used", usedAt := some now } := by
  rw [useRow, if_pos]
  simpa using h

theorem useRow_status (cid now : Nat) (c : SpinCode) :
    (useRow cid now c).status = "used" ∨ (useRow cid now c).status = c.status := by
  rw [useRow]; split
  · exact Or.inl rfl
  · exact Or.inr rfl

theorem findCode_code {db : Db} {v : String} {cd : SpinCode}
    (h : db.findCode v = some cd) : cd.code = v := by
  have h' : db.spinCodes.find? (fun c => c.code == v) = some cd := h
  have hb := List.find?_some h'
  exact eq_of_beq hb

theorem findCode_mem {db : Db} {v : String} {cd : SpinCode}
    (h : db.findCode v = some cd) : cd ∈ db.spinCodes := by
  have h' : db.spinCodes.find? (fun c => c.code == v) = some cd := h
  exact List.mem_of_find?_eq_some h'

theorem findCode_markUsed (db : Db) (cid now : Nat) (v : String) :
    (db.markUsed cid now).findCode v = (db.findCode v).map (useRow cid now) := by
  show (db.spinCodes.map (useRow cid now)).find? (fun c => c.code == v)
      = (db.spinCodes.find? (fun c => c.code == v)).map (useRow cid now)
  rw [List.find?_map]
  have hp : ((fun c : SpinCode => c.code == v) ∘ useRow cid now)
      = fun c : SpinCode => c.code == v := by
    funext c
    simp [Function.comp_apply, useRow_code]
  rw [hp]

theorem markUsed_spinResults (db : Db) (cid now : Nat) :
    (db.markUsed cid now).spinResults = db.spinResults := rfl

theorem insertResult_spinCodes (db : Db) (cid : Nat) (o : Outcome) :
    ((db.insertResult cid o).1).spinCodes = db.spinCodes := rfl

theorem insertResult_spinResults (db : Db) (cid : Nat) (o : Outcome) :
    ((db.insertResult cid o).1).spinResults
      = ⟨db.nextResultId, cid, o.prize, o.cents, o.weight⟩ :: db.spinResults := rfl

/-- Inserting a fresh, not-yet-present code value keeps the invariant. -/
theorem insertCode_inv {db : Db} {v : String} (hinv : DbInv db)
    (hfresh : db.hasCode v = false) : DbInv (db.insertCode v).1 := by
  obtain ⟨hP, hLt, hRP, hRef, hIff, hSt⟩ := hinv
  have hfresh' : ∀ c ∈ db.spinCodes, c.code ≠ v := by
    intro c hc
    have h := List.any_eq_false.mp hfresh c hc
    simpa using h
  have hcodes : (db.insertCode v).1.spinCodes
      = ⟨db.nextCodeId, v, "unused", none⟩ :: db.spinCodes := rfl
  have hres : (db.insertCode v).1.spinResults = db.spinResults := rfl
  have hnext : (db.insertCode v).1.nextCodeId = db.nextCodeId + 1 := rfl
  refine ⟨?_, ?_, ?_, ?_, ?_, ?_⟩
  · rw [hcodes, List.pairwise_cons]
    refine ⟨?_, hP⟩
    intro b hb
    exact ⟨(Nat.ne_of_lt (hLt b hb)).symm, fun he => hfresh' b hb he.symm⟩
  · rw [hcodes, hnext]
    intro c hc
    rcases List.mem_cons.mp hc with hc | hc
    · rw [hc]
      exact Nat.lt_succ_self _
    · exact Nat.lt_trans (hLt c hc) (Nat.lt_succ_self _)
  · rw [hres]
    exact hRP
  · rw [hres, hcodes]
    intro rr hrr
    obtain ⟨c, hc, hcid⟩ := hRef rr hrr
    exact ⟨c, List.mem_cons_of_mem _ hc, hcid⟩
  · rw [hcodes, hres]
    intro c hc
    rcases List.mem_cons.mp hc with hc | hc
    · rw [hc]
      constructor
      · intro hused
        simp at hused
      · rintro ⟨rr, hrr, hcid⟩
        dsimp at hcid
        obtain ⟨c', hc', hcid'⟩ := hRef rr hrr
        have hlt := hLt c' hc'
        rw [hcid'] at hlt
        rw [hcid] at hlt
        exact absurd hlt (Nat.lt_irrefl _)
    · exact hIff c hc
  · rw [hcodes]
    intro c hc
    rcases List.mem_cons.mp hc with hc | hc
    · rw [hc]
      exact Or.inr rfl
    · exact hSt c hc

theorem hasCode_of_mem {db : Db} {c : SpinCode} {v : String}
    (hc : c ∈ db.spinCodes) (hcode : c.code = v) : db.hasCode v = true := by
  apply List.any_eq_true.mpr
  exact ⟨c, hc, by simp [hcode]⟩

/-- The generation loop never touches the `spin_results` table. -/
theorem generateGo_spinResults : ∀ (rs : List Rat) (n : Nat) (db : Db) (acc : List SpinCode),
    (generateGo rs n db acc).1.spinResults = db.spinResults := by
  intro rs
  induction rs with
  | nil =>
    intro n db acc
    cases n <;> rfl
  | cons r rs ih =>
    intro n db acc
    cases n with
    | zero => rfl
    | succ n =>
      rw [generateGo]
      split
      · exact ih (n + 1) db acc
      · exact ih n _ _

/-- Rows present before the generation loop are still present after it. -/
theorem generateGo_mem : ∀ (rs : List Rat) (n : Nat) (db : Db) (acc : List SpinCode)
    (c : SpinCode), c ∈ db.spinCodes → c ∈ (generateGo rs n db acc).1.spinCodes := by
  intro rs
  induction rs with
  | nil =>
    intro n db acc c hc
    cases n <;> exact hc
  | cons r rs ih =>
    intro n db acc c hc
    cases n with
    | zero => exact hc
    | succ n =>
      rw [generateGo]
      split
      · exact ih (n + 1) db acc c hc
      · exact ih n _ _ c (List.mem_cons_of_mem _ hc)

/-- The generation loop keeps the store invariant. -/
theorem generateGo_inv : ∀ (rs : List Rat) (n : Nat) (db : Db) (acc : List SpinCode),
    DbInv db → DbInv (generateGo rs n db acc).1 := by
  intro rs
  induction rs with
  | nil =>
    intro n db acc h
    cases n <;> exact h
  | cons r rs ih =>
    intro n db acc h
    cases n with
    | zero => exact h
    | succ n =>
      rw [generateGo]
      split
      · exact ih (n + 1) db acc h
      · rename_i hfresh
        exact ih n _ _ (insertCode_inv h (by simpa using hfresh))

/-- The generation loop keeps every row holding a given present code value
`'used'`: it only ever inserts rows whose value was absent. -/
theorem generateGo_usedAll : ∀ (rs : List Rat) (n : Nat) (db : Db) (acc : List SpinCode)
    (v : String), UsedAll db v → UsedAll (generateGo rs n db acc).1 v := by
  intro rs
  induction rs with
  | nil =>
    intro n db acc v h
    cases n <;> exact h
  | cons r rs ih =>
    intro n db acc v h
    cases n with
    | zero => exact h
    | succ n =>
      rw [generateGo]
      split
      · exact ih (n + 1) db acc v h
      · rename_i hfresh
        apply ih n _ _ v
        obtain ⟨⟨c0, hc0, hc0v⟩, hall⟩ := h
        have hne : generateSpinCode r ≠ v := by
          intro he
          rw [he] at hfresh
          rw [hasCode_of_mem hc0 hc0v] at hfresh
          exact absurd hfresh (by simp)
        constructor
        · exact ⟨c0, List.mem_cons_of_mem _ hc0, hc0v⟩
        · intro c hc hcv
          rcases List.mem_cons.mp hc with hc | hc
          · rw [hc] at hcv
            exact absurd hcv hne
          · exact hall c hc hcv

/-- Characterization of a successful `/spin/play`: the input was well-formed,
the row was present and unused, the selector produced a tier, and the
published state is exactly the two buffered writes applied to the prior
state. -/
theorem play_ok_char (fs : FailSpec) (db : Db) (v : String) (r : Rat) (t : Nat)
    (hok : (play fs db v r t).1.isOk = true) :
    ∃ cd o, db.findCode v = some cd ∧ (cd.status == "used") = false ∧
      selectWeightedOutcome SPIN_OUTCOMES r = some o ∧
      isValidCodeFormat v = true ∧
      play fs db v r t
        = (.ok o.prize o.cents o.weight, ((db.markUsed cd.id t).insertResult cd.id o).1) := by
  rw [play] at hok ⊢
  split at hok
  · simp [PlayResult.isOk] at hok
  · rename_i hfmt
    split at hok
    · simp [PlayResult.isOk] at hok
    · rename_i hsel
      split at hok
      · simp [PlayResult.isOk] at hok
      · rename_i cd hfind
        split at hok
        · simp [PlayResult.isOk] at hok
        · rename_i hused
          split at hok
          · simp [PlayResult.isOk] at hok
          · rename_i o snd hdraw
            split at hok
            · simp [PlayResult.isOk] at hok
            · rename_i hupd
              split at hok
              · simp [PlayResult.isOk] at hok
              · rename_i hins
                split at hok
                · simp [PlayResult.isOk] at hok
                · rename_i hcommit
                  refine ⟨cd, o, hfind, by simpa using hused, ?_, by simpa using hfmt, ?_⟩
                  · exact congrArg Prod.fst hdraw
                  · simp only [if_neg hfmt, if_neg hsel, if_neg hused, if_neg hupd,
                      if_neg hins, if_neg hcommit]
                    rfl

/-- After any `/spin/play`, the store is either unchanged or is the prior
state with one row marked used and one result row inserted. -/
theorem play_db_cases (fs : FailSpec) (db : Db) (v : String) (r : Rat) (t : Nat) :
    (play fs db v r t).2 = db ∨
    ∃ cd o, db.findCode v = some cd ∧
      (play fs db v r t).2 = ((db.markUsed cd.id t).insertResult cd.id o).1 := by
  cases hok : (play fs db v r t).1.isOk with
  | false => exact Or.inl (play_err_db_eq _ _ _ _ _ hok)
  | true =>
    obtain ⟨cd, o, h1, _, _, _, h5⟩ := play_ok_char fs db v r t hok
    exact Or.inr ⟨cd, o, h1, by rw [h5]⟩

/-- Marking a present unused row used while inserting its (first) result row
keeps the store invariant: the atomic write pair of the `/spin/play`
transaction. -/
theorem markUsed_insert_inv {db : Db} {v : String} {cd : SpinCode} {o : Outcome} {t : Nat}
    (hinv : DbInv db) (hfind : db.findCode v = some cd) (hunused : cd.status ≠ "used") :
    DbInv ((db.markUsed cd.id t).insertResult cd.id o).1 := by
  obtain ⟨hP, hLt, hRP, hRef, hIff, hSt⟩ := hinv
  have hmem : cd ∈ db.spinCodes := findCode_mem hfind
  have hNoRes : ∀ rr ∈ db.spinResults, rr.codeId ≠ cd.id := by
    intro rr hrr hcid
    exact hunused ((hIff cd hmem).mpr ⟨rr, hrr, hcid⟩)
  have hcodes : ((db.markUsed cd.id t).insertResult cd.id o).1.spinCodes
      = db.spinCodes.map (useRow cd.id t) := rfl
  have hres : ((db.markUsed cd.id t).insertResult cd.id o).1.spinResults
      = ⟨db.nextResultId, cd.id, o.prize, o.cents, o.weight⟩ :: db.spinResults := rfl
  have hnext : ((db.markUsed cd.id t).insertResult cd.id o).1.nextCodeId
      = db.nextCodeId := rfl
  refine ⟨?_, ?_, ?_, ?_, ?_, ?_⟩
  · rw [hcodes]
    exact List.Pairwise.map _ (fun a b hab =>
      ⟨by rw [useRow_id, useRow_id]; exact hab.1,
       by rw [useRow_code, useRow_code]; exact hab.2⟩) hP
  · rw [hcodes, hnext]
    intro x hx
    obtain ⟨c, hc, hfc⟩ := List.mem_map.mp hx
    rw [← hfc, useRow_id]
    exact hLt c hc
  · rw [hres, List.pairwise_cons]
    refine ⟨?_, hRP⟩
    intro rr hrr he
    exact hNoRes rr hrr he.symm
  · rw [hres, hcodes]
    intro rr hrr
    rcases List.mem_cons.mp hrr with hrr | hrr
    · refine ⟨useRow cd.id t cd, List.mem_map_of_mem _ hmem, ?_⟩
      rw [useRow_id, hrr]
    · obtain ⟨c, hc, hcid⟩ := hRef rr hrr
      exact ⟨useRow cd.id t c, List.mem_map_of_mem _ hc, by rw [useRow_id]; exact hcid⟩
  · rw [hcodes, hres]
    intro x hx
    obtain ⟨c, hc, hfc⟩ := List.mem_map.mp hx
    by_cases hcid : c.id = cd.id
    · rw [← hfc, useRow_of_eq _ _ _ hcid]
      constructor
      · intro _
        exact ⟨⟨db.nextResultId, cd.id, o.prize, o.cents, o.weight⟩,
          List.mem_cons_self _ _, by rw [useRow_of_eq _ _ _ hcid] at hfc; exact hcid.symm⟩
      · intro _
        rfl
    · rw [← hfc, useRow_of_ne _ _ _ hcid]
      constructor
      · intro hused
        obtain ⟨rr, hrr, hcid'⟩ := (hIff c hc).mp hused
        exact ⟨rr, List.mem_cons_of_mem _ hrr, hcid'⟩
      · rintro ⟨rr, hrr, hcid'⟩
        rcases List.mem_cons.mp hrr with hrr | hrr
        · rw [hrr] at hcid'
          exact absurd hcid'.symm hcid
        · exact (hIff c hc).mpr ⟨rr, hrr, hcid'⟩
  · rw [hcodes]
    intro x hx
    obtain ⟨c, hc, hfc⟩ := List.mem_map.mp hx
    rcases useRow_status cd.id t c with hs | hs
    · exact Or.inl (hfc ▸ hs)
    · rw [← hfc, hs]
      exact hSt c hc

/-- Every `/spin/play`, successful or not, keeps the store invariant. -/
theorem play_inv (fs : FailSpec) (db : Db) (v : String) (r : Rat) (t : Nat)
    (hinv : DbInv db) : DbInv (play fs db v r t).2 := by
  cases hok : (play fs db v r t).1.isOk with
  | false =>
    rw [play_err_db_eq _ _ _ _ _ hok]
    exact hinv
  | true =>
    obtain ⟨cd, o, hfind, hused, _, _, heq⟩ := play_ok_char fs db v r t hok
    rw [heq]
    exact markUsed_insert_inv hinv hfind (by simpa using hused)

/-- Each request handler keeps the store invariant. -/
theorem applyOp_inv (db : Db) (op : Op) (hinv : DbInv db) : DbInv (applyOp db op) := by
  cases op with
  | issue count randoms => exact generateGo_inv _ _ _ _ hinv
  | verifyOp code => exact hinv
  | playOp fs code random now => exact play_inv _ _ _ _ _ hinv

theorem foldl_applyOp_inv (ops : List Op) : ∀ db : Db, DbInv db → DbInv (ops.foldl applyOp db) := by
  induction ops with
  | nil =>
    intro db h
    exact h
  | cons op ops ih =>
    intro db h
    exact ih _ (applyOp_inv db op h)

theorem db0_inv : DbInv db0 := by
  refine ⟨?_, ?_, ?_, ?_, ?_, ?_⟩ <;> simp [db0]

/-- No handler ever deletes a code row, changes its id or value, or moves a
used code out of the `'used'` state. -/
theorem applyOp_mono (db : Db) (op : Op) (c : SpinCode) (hc : c ∈ db.spinCodes) :
    ∃ c' ∈ (applyOp db op).spinCodes,
      c'.id = c.id ∧ c'.code = c.code ∧ (c.status = "used" → c'.status = "used") := by
  cases op with
  | issue count randoms =>
    exact ⟨c, generateGo_mem _ _ _ _ c hc, rfl, rfl, fun h => h⟩
  | verifyOp code =>
    exact ⟨c, hc, rfl, rfl, fun h => h⟩
  | playOp fs code random now =>
    rcases play_db_cases fs db code random now with h | ⟨cd, o, _, h⟩
    · rw [applyOp, h]
      exact ⟨c, hc, rfl, rfl, fun hh => hh⟩
    · rw [applyOp, h]
      refine ⟨useRow cd.id now c, ?_, useRow_id _ _ _, useRow_code _ _ _, ?_⟩
      · show useRow cd.id now c ∈ db.spinCodes.map (useRow cd.id now)
        exact List.mem_map_of_mem _ hc
      · intro hh
        rcases useRow_status cd.id now c with hs | hs
        · exact hs
        · rw [hs]
          exact hh

/-- C4: in every state reachable from the fresh store by any request
sequence, a result row exists for a code exactly when that code is
`'used'`, each code has at most one result row (and vice versa, 1:1 via the
paired uniqueness facts of `DbInv`), and one further request can neither
delete a code row, change its id or value, nor take a `'used'` code out of
that terminal state — so a code flips to `'used'` at most once and is never
reused. -/
theorem ledger_invariants (ops : List Op) :
    DbInv (run ops) ∧
    ∀ (op : Op) (c : SpinCode), c ∈ (run ops).spinCodes →
      ∃ c' ∈ (applyOp (run ops) op).spinCodes,
        c'.id = c.id ∧ c'.code = c.code ∧ (c.status = "used" → c'.status = "used") := by
  constructor
  · exact foldl_applyOp_inv ops db0 db0_inv
  · intro op c hc
    exact applyOp_mono _ op c hc

/-- Concrete instance of `ledger_invariants`: one issued code, then a play
request applied to it. -/
theorem ledger_invariants_witness :
    DbInv (run [Op.issue 1 [mkRat 1 2]]) ∧
    ∃ c' ∈ (applyOp (run [Op.issue 1 [mkRat 1 2]])
        (Op.playOp noFail "55000" (mkRat 1 2) 7)).spinCodes,
      c'.id = (⟨1, "55000", "unused", none⟩ : SpinCode).id ∧
      c'.code = (⟨1, "55000", "unused", none⟩ : SpinCode).code ∧
      ((⟨1, "55000", "unused", none⟩ : SpinCode).status = "used" → c'.status = "used") := by
  have h := ledger_invariants [Op.issue 1 [mkRat 1 2]]
  exact ⟨h.1, h.2 (Op.playOp noFail "55000" (mkRat 1 2) 7)
    ⟨1, "55000", "unused", none⟩ (by decide)⟩

theorem findCode_insertResult (db : Db) (cid : Nat) (o : Outcome) (v : String) :
    ((db.insertResult cid o).1).findCode v = db.findCode v := rfl

theorem verify_invalid {db : Db} {v : String} (h : isValidCodeFormat v = false) :
    verify db v = .invalidFormat := by
  rw [verify, h]
  rfl

theorem play_invalid (fs : FailSpec) (db : Db) (v : String) (r : Rat) (t : Nat)
    (h : isValidCodeFormat v = false) : play fs db v r t = (.err .invalidFormat, db) := by
  rw [play, h]
  rfl

theorem play_notFound {db : Db} {v : String} (r : Rat) (t : Nat)
    (hfmt : isValidCodeFormat v = true) (hfind : db.findCode v = none) :
    play noFail db v r t = (.err .notFound, db) := by
  rw [play, hfmt, hfind]
  rfl

theorem play_alreadyUsed {db : Db} {v : String} {cd : SpinCode} (r : Rat) (t : Nat)
    (hfmt : isValidCodeFormat v = true) (hfind : db.findCode v = some cd)
    (hused : (cd.status == "used") = true) :
    play noFail db v r t = (.err .alreadyUsed, db) := by
  rw [play, hfmt, hfind]
  dsimp only
  rw [hused]
  rfl

theorem verify_alreadyUsed {db : Db} {v : String} {cd : SpinCode}
    (hfmt : isValidCodeFormat v = true) (hfind : db.findCode v = some cd)
    (hused : (cd.status == "used") = true) :
    verify db v = .alreadyUsed := by
  rw [verify, hfmt, hfind]
  dsimp only
  rw [hused]
  rfl

theorem play_ok_eval {db : Db} {v : String} {cd : SpinCode} {o : Outcome} (r : Rat) (t : Nat)
    (hfmt : isValidCodeFormat v = true) (hfind : db.findCode v = some cd)
    (hunused : (cd.status == "used") = false)
    (hsel : selectWeightedOutcome SPIN_OUTCOMES r = some o) :
    play noFail db v r t
      = (.ok o.prize o.cents o.weight, ((db.markUsed cd.id t).insertResult cd.id o).1) := by
  rw [play, hfmt, hfind]
  dsimp only
  rw [hunused]
  have hd : drawStep db r = (some o, db) := by
    rw [drawStep, hsel]
  rw [hd]
  rfl

/-- C1: the `SELECT ... FOR UPDATE` row lock makes two concurrent
`/spin/play` requests for the same code execute as one of the two serial
orders, so over a store where the code is present and unused: the first
transaction succeeds, the second fails with `AlreadyUsed` and changes
nothing, exactly one result row for that code ever exists, and a play of any
*different* code value returns exactly what it would have returned against
the prior store — redemptions of distinct values do not affect each other
(the lock is per row).  The two serialization orders are both instances of
this statement (`r1, t1` against `r2, t2` are arbitrary). -/
theorem same_code_concurrent_redeem (db : Db) (v : String) (cd : SpinCode)
    (r1 r2 : Rat) (t1 t2 : Nat) (hinv : DbInv db) (hfmt : isValidCodeFormat v = true)
    (hfind : db.findCode v = some cd) (hunused : cd.status = "unused") :
    (play noFail db v r1 t1).1.isOk = true ∧
    (play noFail (play noFail db v r1 t1).2 v r2 t2).1 = .err .alreadyUsed ∧
    (play noFail (play noFail db v r1 t1).2 v r2 t2).2 = (play noFail db v r1 t1).2 ∧
    resultsFor (play noFail (play noFail db v r1 t1).2 v r2 t2).2 cd.id = 1 ∧
    ∀ v' r' t', v' ≠ v →
      (play noFail (play noFail db v r1 t1).2 v' r' t').1 = (play noFail db v' r' t').1 := by
  obtain ⟨hP, hLt, hRP, hRef, hIff, hSt⟩ := hinv
  have hmem : cd ∈ db.spinCodes := findCode_mem hfind
  have hcode : cd.code = v := findCode_code hfind
  have hbe : (cd.status == "used") = false := by rw [hunused]; rfl
  obtain ⟨o, hsel, homem⟩ := selectWeightedOutcome_mem SPIN_OUTCOMES r1 (by decide)
  have h1 := play_ok_eval r1 t1 hfmt hfind hbe hsel
  have hfind2 : ((db.markUsed cd.id t1).insertResult cd.id o).1.findCode v
      = some { cd with status := "used", usedAt := some t1 } := by
    rw [findCode_insertResult, findCode_markUsed, hfind, Option.map_some',
      useRow_of_eq _ _ _ rfl]
  have hused2 :
      (({ cd with status := "used", usedAt := some t1 } : SpinCode).status == "used")
        = true := rfl
  have h2 := play_alreadyUsed r2 t2 hfmt hfind2 hused2
  refine ⟨by rw [h1]; rfl, ?_, ?_, ?_, ?_⟩
  · rw [h1]
    dsimp only
    rw [h2]
  · rw [h1]
    dsimp only
    rw [h2]
  · rw [h1]
    dsimp only
    rw [h2]
    have hres2 : ((db.markUsed cd.id t1).insertResult cd.id o).1.spinResults
        = ⟨db.nextResultId, cd.id, o.prize, o.cents, o.weight⟩ :: db.spinResults := rfl
    rw [resultsFor, hres2, List.countP_cons]
    have hz : List.countP (fun rr => rr.codeId == cd.id) db.spinResults = 0 := by
      apply List.countP_eq_zero.mpr
      intro rr hrr hbe'
      have hcontra : cd.status = "used" := (hIff cd hmem).mpr ⟨rr, hrr, eq_of_beq hbe'⟩
      rw [hunused] at hcontra
      exact absurd hcontra (by decide)
    rw [hz]
    simp
  · intro v' r' t' hne
    rw [h1]
    dsimp only
    cases hfmt' : isValidCodeFormat v' with
    | false =>
      rw [play_invalid noFail _ v' r' t' hfmt', play_invalid noFail _ v' r' t' hfmt']
    | true =>
      cases hfind' : db.findCode v' with
      | none =>
        have hfind2' : ((db.markUsed cd.id t1).insertResult cd.id o).1.findCode v'
            = none := by
          rw [findCode_insertResult, findCode_markUsed, hfind', Option.map_none']
        rw [play_notFound r' t' hfmt' hfind2', play_notFound r' t' hfmt' hfind']
      | some c' =>
        have hc'mem : c' ∈ db.spinCodes := findCode_mem hfind'
        have hc'code : c'.code = v' := findCode_code hfind'
        have hcne : c' ≠ cd := by
          intro he
          apply hne
          rw [← hc'code, he, hcode]
        have hsym : Symmetric (fun a b : SpinCode => a.id ≠ b.id ∧ a.code ≠ b.code) := by
          intro a b hab
          exact ⟨Ne.symm hab.1, Ne.symm hab.2⟩
        have hids : c'.id ≠ cd.id := (List.Pairwise.forall hsym hP hc'mem hmem hcne).1
        have hfind2' : ((db.markUsed cd.id t1).insertResult cd.id o).1.findCode v'
            = some c' := by
          rw [findCode_insertResult, findCode_markUsed, hfind', Option.map_some',
            useRow_of_ne _ _ _ hids]
        cases hused' : (c'.status == "used") with
        | true =>
          rw [play_alreadyUsed r' t' hfmt' hfind2' hused',
            play_alreadyUsed r' t' hfmt' hfind' hused']
        | false =>
          obtain ⟨o', hsel', _⟩ := selectWeightedOutcome_mem SPIN_OUTCOMES r' (by decide)
          rw [play_ok_eval r' t' hfmt' hfind2' hused' hsel',
            play_ok_eval r' t' hfmt' hfind' hused' hsel']

/-- Concrete instance of `same_code_concurrent_redeem` on a one-code store,
with the non-interference conjunct instantiated at a different value. -/
theorem same_code_concurrent_redeem_witness :
    (play noFail ⟨[⟨1, "55000", "unused", none⟩], [], 2, 1⟩ "55000"
        (mkRat 1 2) 7).1.isOk = true ∧
    (play noFail (play noFail ⟨[⟨1, "55000", "unused", none⟩], [], 2, 1⟩ "55000"
        (mkRat 1 2) 7).2 "55000" (mkRat 1 4) 8).1 = .err .alreadyUsed ∧
    resultsFor (play noFail (play noFail ⟨[⟨1, "55000", "unused", none⟩], [], 2, 1⟩
        "55000" (mkRat 1 2) 7).2 "55000" (mkRat 1 4) 8).2 1 = 1 ∧
    (play noFail (play noFail ⟨[⟨1, "55000", "unused", none⟩], [], 2, 1⟩ "55000"
        (mkRat 1 2) 7).2 "10000" (mkRat 1 4) 9).1
      = (play noFail ⟨[⟨1, "55000", "unused", none⟩], [], 2, 1⟩ "10000" (mkRat 1 4) 9).1 := by
  have h := same_code_concurrent_redeem ⟨[⟨1, "55000", "unused", none⟩], [], 2, 1⟩
    "55000" ⟨1, "55000", "unused", none⟩ (mkRat 1 2) (mkRat 1 4) 7 8
    (by decide) (by decide) (by decide) rfl
  exact ⟨h.1, h.2.1, h.2.2.2.1, h.2.2.2.2 "10000" (mkRat 1 4) 9 (by decide)⟩

/-- Every handler preserves "the value is present and all its rows are
used": codes are never deleted, never demoted to `'unused'`, and a
generation insert never reuses a present value. -/
theorem usedAll_applyOp (db : Db) (op : Op) (v : String) (h : UsedAll db v) :
    UsedAll (applyOp db op) v := by
  cases op with
  | issue count randoms => exact generateGo_usedAll _ _ _ _ v h
  | verifyOp code => exact h
  | playOp fs code random now =>
    rcases play_db_cases fs db code random now with he | ⟨cd, o, _, he⟩
    · rw [applyOp, he]
      exact h
    · rw [applyOp, he]
      obtain ⟨⟨c0, hc0, hc0v⟩, hall⟩ := h
      constructor
      · refine ⟨useRow cd.id now c0, ?_, by rw [useRow_code]; exact hc0v⟩
        show useRow cd.id now c0 ∈ db.spinCodes.map (useRow cd.id now)
        exact List.mem_map_of_mem _ hc0
      · intro x hx hxv
        have hx' : x ∈ db.spinCodes.map (useRow cd.id now) := hx
        obtain ⟨c, hc, hfc⟩ := List.mem_map.mp hx'
        rcases useRow_status cd.id now c with hs | hs
        · rw [← hfc]
          exact hs
        · rw [← hfc, hs]
          apply hall c hc
          rw [← useRow_code cd.id now c, hfc]
          exact hxv

theorem foldl_usedAll (ops : List Op) : ∀ (db : Db) (v : String),
    UsedAll db v → UsedAll (ops.foldl applyOp db) v := by
  induction ops with
  | nil =>
    intro db v h
    exact h
  | cons op ops ih =>
    intro db v h
    exact ih _ v (usedAll_applyOp db op v h)

/-- After a successful `/spin/play` of `v`, the (unique) row holding `v` is
`'used'`. -/
theorem play_ok_usedAll (db : Db) (v : String) (r : Rat) (t : Nat) (hinv : DbInv db)
    (hok : (play noFail db v r t).1.isOk = true) : UsedAll (play noFail db v r t).2 v := by
  obtain ⟨cd, o, hfind, _, _, _, heq⟩ := play_ok_char noFail db v r t hok
  rw [heq]
  obtain ⟨hP, _, _, _, _, _⟩ := hinv
  have hmem := findCode_mem hfind
  have hcode := findCode_code hfind
  constructor
  · refine ⟨useRow cd.id t cd, ?_, by rw [useRow_code]; exact hcode⟩
    show useRow cd.id t cd ∈ db.spinCodes.map (useRow cd.id t)
    exact List.mem_map_of_mem _ hmem
  · intro x hx hxv
    have hx' : x ∈ db.spinCodes.map (useRow cd.id t) := hx
    obtain ⟨c, hc, hfc⟩ := List.mem_map.mp hx'
    have hccode : c.code = v := by
      rw [← useRow_code cd.id t c, hfc]
      exact hxv
    by_cases hce : c = cd
    · rw [← hfc, hce, useRow_of_eq _ _ _ rfl]
    · have hsym : Symmetric (fun a b : SpinCode => a.id ≠ b.id ∧ a.code ≠ b.code) := by
        intro a b hab
        exact ⟨Ne.symm hab.1, Ne.symm hab.2⟩
      have hne := (List.Pairwise.forall hsym hP hc hmem hce).2
      rw [hccode, hcode] at hne
      exact absurd rfl hne

/-- On a store where every row holding `v` is used, `/spin/verify` answers
`AlreadyUsed`. -/
theorem usedAll_verify (db : Db) (v : String) (hfmt : isValidCodeFormat v = true)
    (h : UsedAll db v) : verify db v = .alreadyUsed := by
  obtain ⟨⟨c0, hc0, hc0v⟩, hall⟩ := h
  have hsome : (db.spinCodes.find? (fun c => c.code == v)).isSome = true :=
    List.find?_isSome.mpr ⟨c0, hc0, by simp [hc0v]⟩
  obtain ⟨cd, hfind⟩ := Option.isSome_iff_exists.mp hsome
  have hfind' : db.findCode v = some cd := hfind
  have hst := hall cd (findCode_mem hfind') (findCode_code hfind')
  exact verify_alreadyUsed hfmt hfind' (by rw [hst]; rfl)

/-- On a store where every row holding `v` is used, `/spin/play` answers
`AlreadyUsed` and changes nothing. -/
theorem usedAll_play (db : Db) (v : String) (r : Rat) (t : Nat)
    (hfmt : isValidCodeFormat v = true) (h : UsedAll db v) :
    play noFail db v r t = (.err .alreadyUsed, db) := by
  obtain ⟨⟨c0, hc0, hc0v⟩, hall⟩ := h
  have hsome : (db.spinCodes.find? (fun c => c.code == v)).isSome = true :=
    List.find?_isSome.mpr ⟨c0, hc0, by simp [hc0v]⟩
  obtain ⟨cd, hfind⟩ := Option.isSome_iff_exists.mp hsome
  have hfind' : db.findCode v = some cd := hfind
  have hst := hall cd (findCode_mem hfind') (findCode_code hfind')
  exact play_alreadyUsed r t hfmt hfind' (by rw [hst]; rfl)

/-- C5: after a successful redemption of `v`, and after any further sequence
of requests, `/spin/verify` on `v` reports `AlreadyUsed`, and `/spin/play`
on `v` fails with `AlreadyUsed` while leaving the store (in particular the
`spin_results` table) completely unchanged. -/
theorem redeemed_code_stays_redeemed (db : Db) (v : String) (r : Rat) (t : Nat)
    (ops : List Op) (hinv : DbInv db) (hok : (play noFail db v r t).1.isOk = true) :
    verify (ops.foldl applyOp (play noFail db v r t).2) v = .alreadyUsed ∧
    ∀ r' t', play noFail (ops.foldl applyOp (play noFail db v r t).2) v r' t'
        = (.err .alreadyUsed, ops.foldl applyOp (play noFail db v r t).2) := by
  obtain ⟨cd, o, _, _, _, hfmt, _⟩ := play_ok_char noFail db v r t hok
  have hu1 : UsedAll (play noFail db v r t).2 v := play_ok_usedAll db v r t hinv hok
  have hu2 : UsedAll (ops.foldl applyOp (play noFail db v r t).2) v :=
    foldl_usedAll ops _ v hu1
  exact ⟨usedAll_verify _ v hfmt hu2, fun r' t' => usedAll_play _ v r' t' hfmt hu2⟩

/-- Concrete instance of `redeemed_code_stays_redeemed`: redeem, then issue
another code, then verify and replay the redeemed value. -/
theorem redeemed_code_stays_redeemed_witness :
    verify (List.foldl applyOp
        (play noFail ⟨[⟨1, "55000", "unused", none⟩], [], 2, 1⟩ "55000" (mkRat 1 2) 7).2
        [Op.issue 1 [mkRat 1 4]]) "55000" = .alreadyUsed ∧
    play noFail (List.foldl applyOp
        (play noFail ⟨[⟨1, "55000", "unused", none⟩], [], 2, 1⟩ "55000" (mkRat 1 2) 7).2
        [Op.issue 1 [mkRat 1 4]]) "55000" (mkRat 1 3) 9
      = (.err .alreadyUsed, List.foldl applyOp
          (play noFail ⟨[⟨1, "55000", "unused", none⟩], [], 2, 1⟩ "55000" (mkRat 1 2) 7).2
          [Op.issue 1 [mkRat 1 4]]) := by
  have h := redeemed_code_stays_redeemed ⟨[⟨1, "55000", "unused", none⟩], [], 2, 1⟩
    "55000" (mkRat 1 2) 7 [Op.issue 1 [mkRat 1 4]] (by decide) (by decide)
  exact ⟨h.1, h.2 (mkRat 1 3) 9⟩

theorem hasCode_insertCode (db : Db) (c v : String) :
    (db.insertCode c).1.hasCode v = ((c == v) || db.hasCode v) := rfl

theorem freshSet_cons_dup {db : Db} {r : Rat} {rs : List Rat}
    (hdup : db.hasCode (generateSpinCode r) = true) :
    freshSet (r :: rs) db = freshSet rs db := by
  rw [freshSet, freshSet, List.map_cons, List.toFinset_cons, Finset.filter_insert, if_neg]
  simp [hdup]

theorem freshSet_cons_fresh {db : Db} {r : Rat} {rs : List Rat}
    (hfresh : db.hasCode (generateSpinCode r) = false) :
    freshSet (r :: rs) db = insert (generateSpinCode r) (freshSet rs db) := by
  rw [freshSet, freshSet, List.map_cons, List.toFinset_cons, Finset.filter_insert,
    if_pos hfresh]

theorem freshSet_insertCode (db : Db) (rs : List Rat) (c : String) :
    freshSet rs (db.insertCode c).1 = (freshSet rs db).erase c := by
  ext v
  simp only [freshSet, Finset.mem_filter, Finset.mem_erase, hasCode_insertCode,
    Bool.or_eq_false_iff, beq_eq_false_iff_ne]
  constructor
  · rintro ⟨hm, hne, hc⟩
    exact ⟨fun he => hne he.symm, hm, hc⟩
  · rintro ⟨hne, hm, hc⟩
    exact ⟨hm, fun he => hne he.symm, hc⟩

theorem card_insert_eq_card_erase_add_one (s : Finset String) (a : String) :
    (insert a s).card = (s.erase a).card + 1 := by
  rw [← Finset.card_insert_of_not_mem (Finset.not_mem_erase a s)]
  congr 1
  ext v
  simp only [Finset.mem_insert, Finset.mem_erase]
  constructor
  · rintro (hv | hv)
    · exact Or.inl hv
    · by_cases hva : v = a
      · exact Or.inl hva
      · exact Or.inr ⟨hva, hv⟩
  · rintro (hv | ⟨_, hv⟩)
    · exact Or.inl hv
    · exact Or.inr hv

/-- When the candidate stream holds at least as many distinct fresh code
values as there are slots, the issuance loop finishes and fills every slot:
duplicates merely consume candidates, never slots. -/
theorem generateGo_completes : ∀ (rs : List Rat) (n : Nat) (db : Db) (acc : List SpinCode),
    n ≤ (freshSet rs db).card →
    (generateGo rs n db acc).2.2 = true ∧
    (generateGo rs n db acc).2.1.length = acc.length + n := by
  intro rs
  induction rs with
  | nil =>
    intro n db acc h
    cases n with
    | zero => exact ⟨rfl, by simp [generateGo]⟩
    | succ n =>
      rw [freshSet] at h
      simp at h
  | cons r rs ih =>
    intro n db acc h
    cases n with
    | zero => exact ⟨rfl, by simp [generateGo]⟩
    | succ n =>
      rw [generateGo]
      split
      · rename_i hdup
        apply ih (n + 1) db acc
        rw [← freshSet_cons_dup hdup]
        exact h
      · rename_i hfresh
        have hfresh' : db.hasCode (generateSpinCode r) = false := by
          revert hfresh
          cases db.hasCode (generateSpinCode r) <;> simp
        have hcard : n ≤ (freshSet rs (db.insertCode (generateSpinCode r)).1).card := by
          rw [freshSet_insertCode]
          rw [freshSet_cons_fresh hfresh',
            card_insert_eq_card_erase_add_one] at h
          omega
        have h2 := ih n _ ((db.insertCode (generateSpinCode r)).2 :: acc) hcard
        refine ⟨h2.1, ?_⟩
        rw [h2.2]
        simp only [List.length_cons]
        omega

/-- C7 counterexample: issuance is not a bounded-retry loop.  With the value
`"10000"` already present and a random source that keeps producing it (the
constant source `0`), `issue(1)` never completes: no finite candidate supply
`k` — i.e. no bound on the per-slot regeneration attempts — makes the loop
finish, so the JS loop `i--; continue` would spin forever. -/
theorem issue_retry_unbounded :
    ¬ ∃ k : Nat, (generate ⟨[⟨1, "10000", "unused", none⟩], [], 2, 1⟩ 1
      (List.replicate k 0)).2.2 = true := by
  rintro ⟨k, hk⟩
  have hgo : ∀ m : Nat, (generateGo (List.replicate m (0 : Rat)) 1
      ⟨[⟨1, "10000", "unused", none⟩], [], 2, 1⟩ []).2.2 = false := by
    intro m
    induction m with
    | zero => rfl
    | succ m ih =>
      rw [List.replicate_succ]
      exact ih
  have hk' : (generateGo (List.replicate k (0 : Rat)) 1
      ⟨[⟨1, "10000", "unused", none⟩], [], 2, 1⟩ []).2.2 = true := hk
  rw [hgo k] at hk'
  exact Bool.false_ne_true hk'

/-- C7 amended: the issuance loop's duplicate retry is unbounded per slot
(see `issue_retry_unbounded`), but whenever the random source supplies at
least `min(count, 100)` distinct not-yet-present code values, `issue(count)`
completes and returns exactly `min(count, 100)` created codes — and a
uniqueness conflict consumes only a candidate, never a slot. -/
theorem issue_completes_with_fresh_candidates (db : Db) (count : Nat) (randoms : List Rat)
    (h : min count 100 ≤ (freshSet randoms db).card) :
    (generate db count randoms).2.2 = true ∧
    (generate db count randoms).2.1.length = min count 100 ∧
    ∀ (db' : Db) (r : Rat) (rs : List Rat) (n : Nat) (acc : List SpinCode),
      db'.hasCode (generateSpinCode r) = true →
      generateGo (r :: rs) (n + 1) db' acc = generateGo rs (n + 1) db' acc := by
  have h2 := generateGo_completes randoms (min count 100) db [] h
  refine ⟨h2.1, ?_, ?_⟩
  · rw [generate]
    have h3 := h2.2
    simpa using h3
  · intro db' r rs n acc hdup
    rw [generateGo, if_pos hdup]

/-- Concrete instance of `issue_completes_with_fresh_candidates`: two slots,
three candidates of which the middle one collides with the first. -/
theorem issue_completes_with_fresh_candidates_witness :
    (generate db0 2 [mkRat 1 2, mkRat 1 2, mkRat 1 4]).2.2 = true ∧
    (generate db0 2 [mkRat 1 2, mkRat 1 2, mkRat 1 4]).2.1.length = min 2 100 ∧
    generateGo [0, mkRat 1 4] (0 + 1) ⟨[⟨1, "10000", "unused", none⟩], [], 2, 1⟩ []
      = generateGo [mkRat 1 4] (0 + 1) ⟨[⟨1, "10000", "unused", none⟩], [], 2, 1⟩ [] := by
  have h := issue_completes_with_fresh_candidates db0 2 [mkRat 1 2, mkRat 1 2, mkRat 1 4]
    (by decide)
  exact ⟨h.1, h.2.1,
    h.2.2 ⟨[⟨1, "10000", "unused", none⟩], [], 2, 1⟩ 0 [mkRat 1 4] 0 [] (by decide)⟩

/-- A candidate drawn with `0 ≤ random < 1` lies in `[10000, 99999]`. -/
theorem generateSpinCodeNat_range (r : Rat) (h0 : 0 ≤ r) (h1 : r < 1) :
    10000 ≤ generateSpinCodeNat r ∧ generateSpinCodeNat r ≤ 99999 := by
  rw [generateSpinCodeNat, raFloor_eq, raAdd_eq, raMul_eq]
  have hlb : (10000 : Rat) ≤ 10000 + r * 90000 := by nlinarith
  have hub : (10000 : Rat) + r * 90000 < 100000 := by nlinarith
  have hfl : (10000 : Int) ≤ ⌊(10000 : Rat) + r * 90000⌋ := by
    apply Int.le_floor.mpr
    exact_mod_cast hlb
  have hfu : ⌊(10000 : Rat) + r * 90000⌋ < 100000 := by
    apply Int.floor_lt.mpr
    exact_mod_cast hub
  omega

/-- The digit renderer emits a nonempty digit list whose leading digit is
nonzero for every positive number (given enough fuel). -/
theorem toDigitsCore10_head : ∀ (fuel n : Nat) (acc : List Char), n < fuel →
    ∃ c cs, Nat.toDigitsCore 10 fuel n acc = c :: cs ∧ (1 ≤ n → c ≠ '0') := by
  intro fuel
  induction fuel with
  | zero =>
    intro n acc h
    omega
  | succ fuel ih =>
    intro n acc h
    by_cases h0 : n / 10 = 0
    · refine ⟨Nat.digitChar (n % 10), acc, ?_, ?_⟩
      · simp only [Nat.toDigitsCore]
        rw [if_pos h0]
      · intro h1
        have hn : n < 10 := by omega
        have hm : n % 10 = n := Nat.mod_eq_of_lt hn
        rw [hm]
        interval_cases n <;> decide
    · have hn1 : 1 ≤ n := by omega
      have hlt : n / 10 < fuel := by omega
      obtain ⟨c, cs, hcs, hc0⟩ := ih (n / 10) (Nat.digitChar (n % 10) :: acc) hlt
      refine ⟨c, cs, ?_, fun _ => hc0 (by omega)⟩
      simp only [Nat.toDigitsCore]
      rw [if_neg h0]
      exact hcs

/-- `Nat.repr` of a positive number never starts with the digit `'0'`. -/
theorem repr_head_ne_zero (n : Nat) (h1 : 1 ≤ n) :
    ∃ c cs, (Nat.repr n).data = c :: cs ∧ c ≠ '0' := by
  obtain ⟨c, cs, hcs, hc0⟩ := toDigitsCore10_head (n + 1) n [] (Nat.lt_succ_self n)
  refine ⟨c, cs, ?_, hc0 h1⟩
  show (Nat.toDigits 10 n).asString.data = c :: cs
  rw [Nat.toDigits, hcs]
  rfl

theorem generateGo_codesFromGen : ∀ (rs : List Rat) (n : Nat) (db : Db)
    (acc : List SpinCode), (∀ r ∈ rs, 0 ≤ r ∧ r < 1) → CodesFromGen db →
    CodesFromGen (generateGo rs n db acc).1 := by
  intro rs
  induction rs with
  | nil =>
    intro n db acc _ h
    cases n <;> exact h
  | cons r rs ih =>
    intro n db acc hval h
    have hvtail : ∀ x ∈ rs, 0 ≤ x ∧ x < 1 :=
      fun x hx => hval x (List.mem_cons_of_mem _ hx)
    cases n with
    | zero => exact h
    | succ n =>
      rw [generateGo]
      split
      · exact ih (n + 1) db acc hvtail h
      · apply ih n _ _ hvtail
        intro c hc
        rcases List.mem_cons.mp hc with hc | hc
        · rw [hc]
          refine ⟨generateSpinCodeNat r, ?_, rfl⟩
          have hr := hval r (List.mem_cons_self _ _)
          have hrange := generateSpinCodeNat_range r hr.1 hr.2
          omega
        · exact h c hc

theorem applyOp_codesFromGen (db : Db) (op : Op) (hop : OpValid op)
    (h : CodesFromGen db) : CodesFromGen (applyOp db op) := by
  cases op with
  | issue count randoms => exact generateGo_codesFromGen _ _ _ _ hop h
  | verifyOp code => exact h
  | playOp fs code random now =>
    rcases play_db_cases fs db code random now with he | ⟨cd, o, _, he⟩
    · rw [applyOp, he]
      exact h
    · rw [applyOp, he]
      intro x hx
      have hx' : x ∈ db.spinCodes.map (useRow cd.id now) := hx
      obtain ⟨c, hc, hfc⟩ := List.mem_map.mp hx'
      obtain ⟨n, hn, hcode⟩ := h c hc
      exact ⟨n, hn, by rw [← hfc, useRow_code]; exact hcode⟩

theorem foldl_codesFromGen : ∀ (ops : List Op) (db : Db), OpsValid ops →
    CodesFromGen db → CodesFromGen (ops.foldl applyOp db) := by
  intro ops
  induction ops with
  | nil =>
    intro db _ h
    exact h
  | cons op ops ih =>
    intro db hops h
    exact ih _ (fun x hx => hops x (List.mem_cons_of_mem _ hx))
      (applyOp_codesFromGen db op (hops op (List.mem_cons_self _ _)) h)

theorem run_codesFromGen (ops : List Op) (hops : OpsValid ops) : CodesFromGen (run ops) :=
  foldl_codesFromGen ops db0 hops (fun c hc => absurd hc (by simp [db0]))

/-- No generated code value ever equals a string with a leading `'0'`. -/
theorem codesFromGen_findCode_none (db : Db) (v : String) (h : CodesFromGen db)
    (hv : v.data.head? = some '0') : db.findCode v = none := by
  apply List.find?_eq_none.mpr
  intro c hc hbe
  obtain ⟨n, hn, hcode⟩ := h c hc
  obtain ⟨ch, cs, hdata, hch⟩ := repr_head_ne_zero n hn
  have he : c.code = v := eq_of_beq hbe
  rw [hcode] at he
  rw [← he, hdata] at hv
  simp at hv
  exact hch hv

/-- C10: with `Math.random()` in `[0, 1)`, every generated code value is the
decimal rendering of a number in `[10000, 99999]`, so no issued code starts
with the digit `'0'`; hence on every reachable store a well-formed value with
a leading zero is simply absent: `/spin/verify` and `/spin/play` both answer
`NotFound` (and the play changes nothing). -/
theorem leading_zero_codes_notFound (r : Rat) (h0 : 0 ≤ r) (h1 : r < 1)
    (ops : List Op) (hops : OpsValid ops) (v : String)
    (hfmt : isValidCodeFormat v = true) (hv : v.data.head? = some '0') :
    (10000 ≤ generateSpinCodeNat r ∧ generateSpinCodeNat r ≤ 99999) ∧
    (∃ c cs, (generateSpinCode r).data = c :: cs ∧ c ≠ '0') ∧
    verify (run ops) v = .notFound ∧
    ∀ r' t', play noFail (run ops) v r' t' = (.err .notFound, run ops) := by
  have hrange := generateSpinCodeNat_range r h0 h1
  have hfind := codesFromGen_findCode_none _ v (run_codesFromGen ops hops) hv
  refine ⟨hrange, ?_, ?_, ?_⟩
  · exact repr_head_ne_zero _ (by omega)
  · rw [verify, hfmt, hfind]
    rfl
  · intro r' t'
    exact play_notFound r' t' hfmt hfind

/-- Concrete instance of `leading_zero_codes_notFound`: one issued code, then
the leading-zero value `"01234"`. -/
theorem leading_zero_codes_notFound_witness :
    (10000 ≤ generateSpinCodeNat (mkRat 1 2) ∧ generateSpinCodeNat (mkRat 1 2) ≤ 99999) ∧
    (∃ c cs, (generateSpinCode (mkRat 1 2)).data = c :: cs ∧ c ≠ '0') ∧
    verify (run [Op.issue 1 [mkRat 1 2]]) "01234" = .notFound ∧
    play noFail (run [Op.issue 1 [mkRat 1 2]]) "01234" (mkRat 1 3) 5
      = (.err .notFound, run [Op.issue 1 [mkRat 1 2]]) := by
  have h := leading_zero_codes_notFound (mkRat 1 2) (by decide) (by decide)
    [Op.issue 1 [mkRat 1 2]] (by decide) "01234" (by decide) (by decide)
  exact ⟨h.1, h.2.1, h.2.2.1, h.2.2.2 (mkRat 1 3) 5⟩
